import Mathlib

/-!
Formal model of the sequential download queue of this repository.

The definitions below are a shallow embedding of the Python sources:
  * `src/models.py`    — the enumerations, `DownloadRequest`, `QueueItem`,
    `QueueResponse`, `DownloadRecord` and `detect_platform`;
  * `src/queue_manager.py` — `QueuedDownload` and the `QueueManager`
    operations `add`, `cancel`, `get_position`, `get_item`,
    `update_progress`, `update_title`, `mark_completed`, `mark_failed`,
    `get_queue_status`, together with the drain loop `_process_queue`;
  * `src/database.py`  — `update_download_status`.

Python object aliasing matters here: the `asyncio.Queue` and the `_items`
dict hold references to the same `QueuedDownload` objects, and `cancel`
removes a record from `_items` without removing it from the queue.  The
model therefore keeps a single object heap (`objs`, keyed by `job_id`,
which is process unique) and lets `_items` and the queue hold keys into
it.  `uuid.uuid4()` is modelled by a fresh-counter (`nextId`); wall-clock
timestamps are abstracted (an explicit `now` parameter where a claim
needs one, the constant 0 elsewhere).  The drain loop is modelled by two
atomic steps, `dispatch` (the loop pops the queue head, sets `_current`,
marks the object `DOWNLOADING` and invokes the download callback) and
`finish` (the callback terminates: the success path of
`DownloadService.process_download` calls `mark_completed`, its error
path calls `mark_failed`, and an exception escaping the callback makes
`_process_queue` set the object's status to `FAILED` directly; in every
case the `finally` block clears `_current`).
-/

namespace DLQueue

/-- Model of `DownloadFormat` from `src/models.py`. -/
inductive DownloadFormat
  | video
  | audio
deriving DecidableEq, Repr

/-- The `.value` string of a `DownloadFormat` member. -/
def DownloadFormat.val : DownloadFormat → String
  | .video => "video"
  | .audio => "audio"

/-- Pydantic coercion of a string into `DownloadFormat` (the closed
enumeration check performed when a `DownloadRequest` is constructed). -/
def DownloadFormat.ofString : String → Option DownloadFormat
  | "video" => some .video
  | "audio" => some .audio
  | _ => none

/-- Model of `VideoQuality` from `src/models.py`. -/
inductive VideoQuality
  | q360 | q480 | q720 | q1080 | q1440 | q4k | best
deriving DecidableEq, Repr

/-- The `.value` string of a `VideoQuality` member. -/
def VideoQuality.val : VideoQuality → String
  | .q360 => "360p"
  | .q480 => "480p"
  | .q720 => "720p"
  | .q1080 => "1080p"
  | .q1440 => "1440p"
  | .q4k => "2160p"
  | .best => "best"

/-- Pydantic coercion of a string into `VideoQuality`. -/
def VideoQuality.ofString : String → Option VideoQuality
  | "360p" => some .q360
  | "480p" => some .q480
  | "720p" => some .q720
  | "1080p" => some .q1080
  | "1440p" => some .q1440
  | "2160p" => some .q4k
  | "best" => some .best
  | _ => none

/-- Model of `AudioQuality` from `src/models.py`. -/
inductive AudioQuality
  | k128 | k192 | k320
deriving DecidableEq, Repr

/-- The `.value` string of an `AudioQuality` member. -/
def AudioQuality.val : AudioQuality → String
  | .k128 => "128"
  | .k192 => "192"
  | .k320 => "320"

/-- Pydantic coercion of a string into `AudioQuality`. -/
def AudioQuality.ofString : String → Option AudioQuality
  | "128" => some .k128
  | "192" => some .k192
  | "320" => some .k320
  | _ => none

/-- Model of `DownloadStatus` from `src/models.py`.  Note that the enumeration has
six members and none of them is a distinct `CANCELLED` state. -/
inductive DownloadStatus
  | queued
  | fetching_info
  | downloading
  | processing
  | completed
  | failed
deriving DecidableEq, Repr

/-- The `.value` string of a `DownloadStatus` member. -/
def DownloadStatus.val : DownloadStatus → String
  | .queued => "queued"
  | .fetching_info => "fetching_info"
  | .downloading => "downloading"
  | .processing => "processing"
  | .completed => "completed"
  | .failed => "failed"

/-- Model of `Platform` from `src/models.py`. -/
inductive Platform
  | youtube | instagram | tiktok | twitter | facebook | vimeo | twitch | reddit | unknown
deriving DecidableEq, Repr

/-- The `.value` string of a `Platform` member. -/
def Platform.val : Platform → String
  | .youtube => "youtube"
  | .instagram => "instagram"
  | .tiktok => "tiktok"
  | .twitter => "twitter"
  | .facebook => "facebook"
  | .vimeo => "vimeo"
  | .twitch => "twitch"
  | .reddit => "reddit"
  | .unknown => "unknown"

/-- Whether `needle` occurs at the start of the second list. -/
def startsWithSeq : List Char → List Char → Bool
  | [], _ => true
  | _ :: _, [] => false
  | a :: as, b :: bs => a == b && startsWithSeq as bs

/-- Whether `needle` occurs somewhere inside the second list. -/
def containsSeq (needle : List Char) : List Char → Bool
  | [] => needle.isEmpty
  | b :: bs => startsWithSeq needle (b :: bs) || containsSeq needle bs

/-- Python's `needle in hay` on strings. -/
def strContains (hay needle : String) : Bool :=
  containsSeq needle.toList hay.toList

/-- Python's `url.lower()` (ASCII range, which is all the platform
substring checks compare against). -/
def lowerStr (x : String) : String := String.mk (x.data.map Char.toLower)

/-- Model of `detect_platform` from `src/models.py`: substring checks on the
lowercased URL, in the order of the source's `if`/`elif` chain. -/
def detect_platform (url : String) : Platform :=
  let u := lowerStr url
  if strContains u "youtube.com" || strContains u "youtu.be" then .youtube
  else if strContains u "instagram.com" then .instagram
  else if strContains u "tiktok.com" then .tiktok
  else if strContains u "twitter.com" || strContains u "x.com" then .twitter
  else if strContains u "facebook.com" || strContains u "fb.watch" then .facebook
  else if strContains u "vimeo.com" then .vimeo
  else if strContains u "twitch.tv" then .twitch
  else if strContains u "reddit.com" then .reddit
  else .unknown

/-- Model of `DownloadRequest` from `src/models.py` (the pydantic schema, after
validation has succeeded). -/
structure DownloadRequest where
  url : String
  format : DownloadFormat := .video
  video_quality : VideoQuality := .best
  audio_quality : AudioQuality := .k192
  playlist_items : Option (List Int) := none
deriving DecidableEq, Repr

/-- Construction of a `DownloadRequest` from raw field strings: pydantic
rejects the request (FastAPI answers 422 and `QueueManager.add` is never
called) unless every enum field is a recognized member. -/
def parseDownloadRequest (url fmt vq aq : String) (playlist_items : Option (List Int)) :
    Option DownloadRequest :=
  match DownloadFormat.ofString fmt, VideoQuality.ofString vq, AudioQuality.ofString aq with
  | some f, some v, some a => some ⟨url, f, v, a, playlist_items⟩
  | _, _, _ => none

/-- Model of `QueuedDownload` from `src/queue_manager.py`.  `created_at`
(`datetime.utcnow()`) is abstracted to a constant; no queue operation
reads it. -/
structure QueuedDownload where
  job_id : Nat
  url : String
  format : String
  video_quality : String
  audio_quality : String
  playlist_items : Option (List Int)
  title : Option String := none
  platform : String := "unknown"
  status : DownloadStatus := .queued
  progress : ℚ := 0
  created_at : Nat := 0
  sid : Option String := none
deriving DecidableEq, Repr

/-- The object heap: every `QueuedDownload` object ever created, keyed by
its `job_id` (process unique, so object identity coincides with it). -/
abbrev Heap := List (Nat × QueuedDownload)

/-- Dictionary lookup in the heap. -/
def lookupObj : Heap → Nat → Option QueuedDownload
  | [], _ => none
  | (k, v) :: rest, id => if k = id then some v else lookupObj rest id

/-- In-place mutation of the object stored under `id` (Python attribute
assignment through any alias of the object). -/
def updObj : Heap → Nat → (QueuedDownload → QueuedDownload) → Heap
  | [], _, _ => []
  | (k, v) :: rest, id, f =>
    if k = id then (k, f v) :: updObj rest id f else (k, v) :: updObj rest id f

/-- The keys of the heap. -/
def keys (h : Heap) : List Nat := h.map Prod.fst

/-- The mutable state of the `QueueManager` singleton.  `itemsIds` is the
key list of the `_items` dict in insertion order, `queueIds` the contents
of the `asyncio.Queue` (head = next to be dequeued), `current` the
`_current` field, `nextId` the fresh-identifier counter standing for
`uuid.uuid4()`.  `admitted` and `dispatched` are ghost traces recording
the order of admissions and of drain-loop dispatches. -/
structure MState where
  objs : Heap
  itemsIds : List Nat
  queueIds : List Nat
  current : Option Nat
  nextId : Nat
  admitted : List Nat
  dispatched : List Nat
deriving DecidableEq, Repr

/-- The freshly initialized `QueueManager`. -/
def initState : MState :=
  { objs := [], itemsIds := [], queueIds := [], current := none,
    nextId := 0, admitted := [], dispatched := [] }

/-- Status of the object stored under `id`. -/
def statusOf (s : MState) (id : Nat) : Option DownloadStatus :=
  (lookupObj s.objs id).map QueuedDownload.status

/-- Progress of the object stored under `id`. -/
def progressOf (s : MState) (id : Nat) : Option ℚ :=
  (lookupObj s.objs id).map QueuedDownload.progress

/-- Model of `QueueManager.add`: builds the `QueuedDownload` in state `QUEUED` with
progress 0, stores it in `_items`, puts it on the `asyncio.Queue` and
returns it.  (The `thumbnail` parameter of the source is accepted and
ignored there as well: `QueuedDownload` has no thumbnail field.) -/
def add (request : DownloadRequest) (sid title : Option String) (s : MState) :
    QueuedDownload × MState :=
  let job_id := s.nextId
  let platform := detect_platform request.url
  let item : QueuedDownload :=
    { job_id := job_id
      url := request.url
      format := request.format.val
      video_quality := request.video_quality.val
      audio_quality := request.audio_quality.val
      playlist_items := request.playlist_items
      title := title
      platform := platform.val
      sid := sid }
  (item,
    { s with
      objs := s.objs ++ [(job_id, item)]
      itemsIds := s.itemsIds ++ [job_id]
      queueIds := s.queueIds ++ [job_id]
      nextId := s.nextId + 1
      admitted := s.admitted ++ [job_id] })

/-- The FastAPI download endpoint: pydantic validation followed by
`QueueManager.add`.  On a rejected specification no job is created and
the manager state is returned untouched. -/
def admitValidated (url fmt vq aq : String) (playlist_items : Option (List Int))
    (sid title : Option String) (s : MState) : Option QueuedDownload × MState :=
  match parseDownloadRequest url fmt vq aq playlist_items with
  | some req =>
    let r := add req sid title s
    (some r.1, r.2)
  | none => (none, s)

/-- Model of `QueueManager.cancel`: returns `False` for an unknown id; for a known
record it checks the status, and only a `QUEUED` record is cancelled —
its status is set to `FAILED` (the enumeration has no cancelled state)
and it is deleted from `_items`.  The `asyncio.Queue` is not touched. -/
def cancel (id : Nat) (s : MState) : Bool × MState :=
  if id ∈ s.itemsIds then
    match lookupObj s.objs id with
    | some it =>
      if it.status = .queued then
        (true,
          { s with
            objs := updObj s.objs id (fun o => { o with status := .failed })
            itemsIds := s.itemsIds.erase id })
      else (false, s)
    | none => (false, s)
  else (false, s)

/-- The scanning loop of `QueueManager.get_position`: walks
`_items.values()` in insertion order, counting `QUEUED` records. -/
def posLoop (s : MState) : List Nat → Nat → Int → Int
  | [], _, _ => -1
  | i :: rest, id, pos =>
    match lookupObj s.objs i with
    | none => posLoop s rest id pos
    | some it =>
      if it.status = .queued then
        if it.job_id = id then pos else posLoop s rest id (pos + 1)
      else posLoop s rest id pos

/-- Model of `QueueManager.get_position`: 0 for the job currently being processed,
a 1-based rank among `QUEUED` records otherwise, `-1` when not found. -/
def get_position (s : MState) (id : Nat) : Int :=
  if s.current = some id then 0
  else posLoop s s.itemsIds id 1

/-- Model of `QueueManager.get_item`: `_items.get(job_id)`. -/
def get_item (s : MState) (id : Nat) : Option QueuedDownload :=
  if id ∈ s.itemsIds then lookupObj s.objs id else none

/-- Model of `QueueManager.update_progress`: no-op for an unknown id; otherwise
sets the progress and, when a (truthy) status is supplied, the status. -/
def update_progress (id : Nat) (progress : ℚ) (status : Option DownloadStatus)
    (s : MState) : MState :=
  if id ∈ s.itemsIds then
    match status with
    | some st =>
      { s with objs := updObj s.objs id (fun o => { o with progress := progress, status := st }) }
    | none =>
      { s with objs := updObj s.objs id (fun o => { o with progress := progress }) }
  else s

/-- Model of `QueueManager.update_title`: no-op for an unknown id. -/
def update_title (id : Nat) (title : String) (s : MState) : MState :=
  if id ∈ s.itemsIds then
    { s with objs := updObj s.objs id (fun o => { o with title := some title }) }
  else s

/-- Model of `QueueManager.mark_completed`: no-op for an unknown id; otherwise
sets status `COMPLETED` and progress `100`. -/
def mark_completed (id : Nat) (s : MState) : MState :=
  if id ∈ s.itemsIds then
    { s with objs := updObj s.objs id (fun o => { o with status := .completed, progress := 100 }) }
  else s

/-- Model of `QueueManager.mark_failed`: no-op for an unknown id; otherwise sets
status `FAILED`. -/
def mark_failed (id : Nat) (s : MState) : MState :=
  if id ∈ s.itemsIds then
    { s with objs := updObj s.objs id (fun o => { o with status := .failed }) }
  else s

/-- Model of `QueueItem` from `src/models.py`. -/
structure QueueItem where
  job_id : Nat
  url : String
  title : Option String
  platform : String
  format : String
  quality : String
  status : DownloadStatus
  position : Int
  progress : ℚ := 0
deriving DecidableEq, Repr

/-- Model of `QueueResponse` from `src/models.py`. -/
structure QueueResponse where
  items : List QueueItem
  total : Nat
  processing : Option Nat := none
deriving DecidableEq, Repr

/-- The `QueueItem` built by `get_queue_status` from a record, a position
and the reported progress. -/
def toQueueItem (it : QueuedDownload) (pos : Int) (prog : ℚ) : QueueItem :=
  { job_id := it.job_id
    url := it.url
    title := it.title
    platform := it.platform
    format := it.format
    quality := it.video_quality
    status := it.status
    position := pos
    progress := prog }

/-- The second loop of `QueueManager.get_queue_status`: every `QUEUED`
record of `_items`, in insertion order, with an incrementing position and
the literal progress `0`. -/
def statusLoop (s : MState) : List Nat → Int → List QueueItem
  | [], _ => []
  | i :: rest, pos =>
    match lookupObj s.objs i with
    | none => statusLoop s rest pos
    | some it =>
      if it.status = .queued then
        toQueueItem it pos 0 :: statusLoop s rest (pos + 1)
      else statusLoop s rest pos

/-- Model of `QueueManager.get_queue_status`: the current item first (position 0,
stored progress), when it exists in `_items`; then the `QUEUED` records
with positions 1, 2, … and progress 0. -/
def get_queue_status (s : MState) : QueueResponse :=
  let activePart : List QueueItem :=
    match s.current with
    | some c =>
      if c ∈ s.itemsIds then
        match lookupObj s.objs c with
        | some it => [toQueueItem it 0 it.progress]
        | none => []
      else []
    | none => []
  let items := activePart ++ statusLoop s s.itemsIds 1
  { items := items, total := items.length, processing := s.current }

/-- Model of `DownloadRecord` from `src/models.py` (the SQLAlchemy row). -/
structure DownloadRecord where
  job_id : Nat
  url : String
  title : Option String := none
  platform : String := "unknown"
  format : String := "video"
  quality : String := "best"
  status : String := "queued"
  progress : Int := 0
  file_path : Option String := none
  file_size : Option Int := none
  thumbnail : Option String := none
  duration : Option Int := none
  error_message : Option String := none
  created_at : Nat := 0
  completed_at : Option Nat := none
deriving DecidableEq, Repr

/-- Model of `update_download_status` from `src/database.py`: always writes the
status string; writes each optional column only when the argument is
supplied; stamps `completed_at` exactly when the new status is
`COMPLETED`. -/
def update_download_status (r : DownloadRecord) (status : DownloadStatus)
    (progress : Option Int) (error_message : Option String)
    (file_path : Option String) (file_size : Option Int)
    (title : Option String) (now : Nat) : DownloadRecord :=
  { r with
    status := status.val
    progress := progress.getD r.progress
    error_message := match error_message with
      | some e => some e
      | none => r.error_message
    file_path := match file_path with
      | some p => some p
      | none => r.file_path
    file_size := match file_size with
      | some z => some z
      | none => r.file_size
    title := match title with
      | some t => some t
      | none => r.title
    completed_at := if status = .completed then some now else r.completed_at }

/-- Outcome of one drain cycle, as seen by `_process_queue`: the download
callback succeeded (`DownloadService.process_download` reached
`mark_completed`), it handled a failure itself (`mark_failed`), or it
raised and the drain loop's `except` branch set the object's status to
`FAILED` directly. -/
inductive FinishOutcome
  | ok
  | err
  | raised
deriving DecidableEq, Repr

/-- The dequeue half of one drain cycle: pop the queue head, set
`_current`, mark the object `DOWNLOADING` and invoke the callback (the
ghost `dispatched` trace records the invocation). -/
def dispatch (id : Nat) (rest : List Nat) (s : MState) : MState :=
  { s with
    queueIds := rest
    current := some id
    objs := updObj s.objs id (fun o => { o with status := .downloading })
    dispatched := s.dispatched ++ [id] }

/-- The completion half of one drain cycle: apply the terminal marking for
the outcome, then the `finally` block clears `_current`. -/
def finish (id : Nat) (o : FinishOutcome) (s : MState) : MState :=
  let s' := match o with
    | .ok => mark_completed id s
    | .err => mark_failed id s
    | .raised => { s with objs := updObj s.objs id (fun x => { x with status := .failed }) }
  { s' with current := none }

/-- One atomic step of the manager: an admission, a cancellation, or one
of the two halves of a drain cycle.  The event loop serializes these. -/
inductive Step : MState → MState → Prop
  | admission (s : MState) (request : DownloadRequest) (sid title : Option String) :
      Step s (add request sid title s).2
  | cancelled (s : MState) (id : Nat) :
      Step s (cancel id s).2
  | drainStart (s : MState) (id : Nat) (rest : List Nat)
      (hc : s.current = none) (hq : s.queueIds = id :: rest) :
      Step s (dispatch id rest s)
  | drainFinish (s : MState) (id : Nat) (o : FinishOutcome)
      (hc : s.current = some id) :
      Step s (finish id o s)

/-- States reachable from the freshly initialized manager. -/
inductive Reachable : MState → Prop
  | init : Reachable initState
  | step {s t : MState} : Reachable s → Step s t → Reachable t

theorem keys_cons (k : Nat) (v : QueuedDownload) (rest : Heap) :
    keys ((k, v) :: rest) = k :: keys rest := rfl

theorem keys_append (h₁ h₂ : Heap) : keys (h₁ ++ h₂) = keys h₁ ++ keys h₂ := by
  simp [keys]

theorem keys_updObj (h : Heap) (id : Nat) (f : QueuedDownload → QueuedDownload) :
    keys (updObj h id f) = keys h := by
  induction h with
  | nil => rfl
  | cons p rest ih =>
    obtain ⟨k, v⟩ := p
    by_cases hk : k = id <;> simp [updObj, hk, keys_cons, ih]

theorem lookupObj_append (h₁ h₂ : Heap) (id : Nat) :
    lookupObj (h₁ ++ h₂) id =
      match lookupObj h₁ id with
      | some v => some v
      | none => lookupObj h₂ id := by
  induction h₁ with
  | nil => simp [lookupObj]
  | cons p rest ih =>
    obtain ⟨k, v⟩ := p
    by_cases hk : k = id <;> simp [lookupObj, hk, ih]

theorem mem_keys_iff_lookup {h : Heap} {id : Nat} :
    id ∈ keys h ↔ (lookupObj h id).isSome := by
  induction h with
  | nil => simp [keys, lookupObj]
  | cons p rest ih =>
    obtain ⟨k, v⟩ := p
    by_cases hk : k = id
    · subst hk
      simp [keys_cons, lookupObj]
    · have hk' : ¬id = k := fun hh => hk hh.symm
      simp only [keys_cons, List.mem_cons, lookupObj, if_neg hk]
      simp [hk', ih]

theorem lookupObj_eq_none {h : Heap} {id : Nat} (hid : id ∉ keys h) :
    lookupObj h id = none := by
  rcases hl : lookupObj h id with _ | v
  · rfl
  · exact absurd (mem_keys_iff_lookup.mpr (by simp [hl])) hid

theorem lookupObj_isSome_of_mem {h : Heap} {id : Nat} (hid : id ∈ keys h) :
    ∃ v, lookupObj h id = some v := by
  have hs := mem_keys_iff_lookup.mp hid
  rcases hl : lookupObj h id with _ | v
  · rw [hl] at hs; cases hs
  · exact ⟨v, rfl⟩

theorem lookupObj_updObj_self (h : Heap) (id : Nat) (f : QueuedDownload → QueuedDownload) :
    lookupObj (updObj h id f) id = (lookupObj h id).map f := by
  induction h with
  | nil => rfl
  | cons p rest ih =>
    obtain ⟨k, v⟩ := p
    by_cases hk : k = id <;> simp [lookupObj, updObj, hk, ih]

theorem lookupObj_updObj_ne (h : Heap) {id j : Nat} (f : QueuedDownload → QueuedDownload)
    (hne : j ≠ id) : lookupObj (updObj h id f) j = lookupObj h j := by
  induction h with
  | nil => rfl
  | cons p rest ih =>
    obtain ⟨k, v⟩ := p
    by_cases hk : k = id
    · subst hk
      have hkj : ¬k = j := fun hh => hne hh.symm
      simp [lookupObj, updObj, hkj, ih]
    · by_cases hj : k = j <;> simp [lookupObj, updObj, hk, hj, hne, ih]

theorem keyed_updObj {h : Heap} {id : Nat} {f : QueuedDownload → QueuedDownload}
    (hk : ∀ p ∈ h, (p : Nat × QueuedDownload).2.job_id = p.1)
    (hf : ∀ v, (f v).job_id = v.job_id) :
    ∀ p ∈ updObj h id f, (p : Nat × QueuedDownload).2.job_id = p.1 := by
  induction h with
  | nil => intro p hp; cases hp
  | cons q rest ih =>
    obtain ⟨k, v⟩ := q
    have hkv := hk (k, v) (List.mem_cons_self _ _)
    have hrest : ∀ p ∈ rest, (p : Nat × QueuedDownload).2.job_id = p.1 :=
      fun p hp => hk p (List.mem_cons_of_mem _ hp)
    intro p hp
    by_cases hkid : k = id
    · rw [updObj, if_pos hkid] at hp
      rcases List.mem_cons.mp hp with hp1 | hp2
      · subst hp1
        simpa [hf] using hkv
      · exact ih hrest p hp2
    · rw [updObj, if_neg hkid] at hp
      rcases List.mem_cons.mp hp with hp1 | hp2
      · subst hp1; exact hkv
      · exact ih hrest p hp2

/-- The well-formedness invariant of reachable manager states. -/
structure WF (s : MState) : Prop where
  keys_nodup : (keys s.objs).Nodup
  keys_lt : ∀ i ∈ keys s.objs, i < s.nextId
  admitted_eq : s.admitted = keys s.objs
  items_sub : s.itemsIds.Sublist (keys s.objs)
  queue_sub : ∀ i ∈ s.queueIds, i ∈ keys s.objs
  fifo : s.dispatched ++ s.queueIds = s.admitted
  keyed : ∀ p ∈ s.objs, (p : Nat × QueuedDownload).2.job_id = p.1
  current_mem : ∀ c, s.current = some c → c ∈ keys s.objs
  current_active : ∀ c, s.current = some c → statusOf s c = some DownloadStatus.downloading
  active_ident : ∀ i ∈ s.itemsIds, statusOf s i = some DownloadStatus.downloading →
    s.current = some i

theorem wf_init : WF initState := by
  constructor <;> simp [initState, keys, statusOf, lookupObj]

theorem add_snd (request : DownloadRequest) (sid title : Option String) (s : MState) :
    (add request sid title s).2 =
      { s with
        objs := s.objs ++ [(s.nextId, (add request sid title s).1)]
        itemsIds := s.itemsIds ++ [s.nextId]
        queueIds := s.queueIds ++ [s.nextId]
        nextId := s.nextId + 1
        admitted := s.admitted ++ [s.nextId] } := rfl

theorem add_fst_job_id (request : DownloadRequest) (sid title : Option String) (s : MState) :
    (add request sid title s).1.job_id = s.nextId := rfl

theorem add_fst_status (request : DownloadRequest) (sid title : Option String) (s : MState) :
    (add request sid title s).1.status = DownloadStatus.queued := rfl

theorem add_fst_progress (request : DownloadRequest) (sid title : Option String) (s : MState) :
    (add request sid title s).1.progress = 0 := rfl

theorem wf_add (s : MState) (hf : WF s) (request : DownloadRequest) (sid title : Option String) :
    WF (add request sid title s).2 := by
  have hnew : s.nextId ∉ keys s.objs := fun hmem => lt_irrefl _ (hf.keys_lt _ hmem)
  have hkeys : keys (s.objs ++ [(s.nextId, (add request sid title s).1)])
      = keys s.objs ++ [s.nextId] := by
    rw [keys_append]; rfl
  have hlooknew : lookupObj (s.objs ++ [(s.nextId, (add request sid title s).1)]) s.nextId
      = some (add request sid title s).1 := by
    rw [lookupObj_append, lookupObj_eq_none hnew]
    simp [lookupObj]
  rw [add_snd]
  refine ⟨?_, ?_, ?_, ?_, ?_, ?_, ?_, ?_, ?_, ?_⟩
  · -- keys_nodup
    simp only [hkeys]
    rw [List.nodup_append]
    refine ⟨hf.keys_nodup, List.nodup_singleton _, ?_⟩
    intro a ha hb
    rw [List.mem_singleton] at hb
    exact hnew (hb ▸ ha)
  · -- keys_lt
    intro i hi
    simp only [hkeys] at hi
    rcases List.mem_append.mp hi with hi | hi
    · exact Nat.lt_succ_of_lt (hf.keys_lt i hi)
    · rw [List.mem_singleton] at hi
      simp [hi]
  · -- admitted_eq
    simp only [hkeys, hf.admitted_eq]
  · -- items_sub
    simp only [hkeys]
    exact List.Sublist.append hf.items_sub (List.Sublist.refl _)
  · -- queue_sub
    intro i hi
    simp only [hkeys]
    rcases List.mem_append.mp hi with hi | hi
    · exact List.mem_append_left _ (hf.queue_sub i hi)
    · exact List.mem_append_right _ hi
  · -- fifo
    show s.dispatched ++ (s.queueIds ++ [s.nextId]) = s.admitted ++ [s.nextId]
    rw [← List.append_assoc, hf.fifo]
  · -- keyed
    intro p hp
    rcases List.mem_append.mp hp with hp | hp
    · exact hf.keyed p hp
    · rw [List.mem_singleton] at hp
      subst hp
      rfl
  · -- current_mem
    intro c hc
    simp only [hkeys]
    exact List.mem_append_left _ (hf.current_mem c hc)
  · -- current_active
    intro c hc
    obtain ⟨v, hv⟩ := lookupObj_isSome_of_mem (hf.current_mem c hc)
    have hold := hf.current_active c hc
    simp only [statusOf] at hold ⊢
    rw [lookupObj_append, hv]
    rw [hv] at hold
    exact hold
  · -- active_ident
    intro i hi hstat
    rcases List.mem_append.mp hi with hi | hi
    · obtain ⟨v, hv⟩ := lookupObj_isSome_of_mem (hf.items_sub.subset hi)
      simp only [statusOf] at hstat
      rw [lookupObj_append, hv] at hstat
      have : statusOf s i = some DownloadStatus.downloading := by
        simp only [statusOf]; rw [hv]; exact hstat
      exact hf.active_ident i hi this
    · rw [List.mem_singleton] at hi
      subst hi
      simp only [statusOf] at hstat
      rw [hlooknew] at hstat
      simp [add_fst_status] at hstat

theorem wf_cancel (s : MState) (hf : WF s) (id : Nat) : WF (cancel id s).2 := by
  by_cases hid : id ∈ s.itemsIds
  · rcases hl : lookupObj s.objs id with _ | it
    · simpa [cancel, hid, hl] using hf
    · by_cases hst : it.status = DownloadStatus.queued
      · have hitems_nd : s.itemsIds.Nodup := hf.items_sub.nodup hf.keys_nodup
        have hc2 : (cancel id s).2 =
            { s with
              objs := updObj s.objs id (fun o => { o with status := .failed })
              itemsIds := s.itemsIds.erase id } := by
          simp [cancel, hid, hl, hst]
        rw [hc2]
        refine ⟨?_, ?_, ?_, ?_, ?_, ?_, ?_, ?_, ?_, ?_⟩
        · simpa only [keys_updObj] using hf.keys_nodup
        · simpa only [keys_updObj] using hf.keys_lt
        · simpa only [keys_updObj] using hf.admitted_eq
        · simp only [keys_updObj]
          exact (List.erase_sublist id s.itemsIds).trans hf.items_sub
        · simpa only [keys_updObj] using hf.queue_sub
        · exact hf.fifo
        · exact keyed_updObj hf.keyed (fun v => rfl)
        · simpa only [keys_updObj] using hf.current_mem
        · intro c hc
          have hcs := hf.current_active c hc
          have hcid : c ≠ id := by
            intro hh
            subst hh
            simp only [statusOf, hl, Option.map_some'] at hcs
            rw [hst] at hcs
            cases hcs
          simp only [statusOf]
          rw [lookupObj_updObj_ne _ _ hcid]
          exact hcs
        · intro i hi hstat
          have hiid : i ≠ id := by
            intro hh
            subst hh
            exact hitems_nd.not_mem_erase hi
          have hi' : i ∈ s.itemsIds := List.mem_of_mem_erase hi
          simp only [statusOf] at hstat
          rw [lookupObj_updObj_ne _ _ hiid] at hstat
          exact hf.active_ident i hi' hstat
      · simpa [cancel, hid, hl, hst] using hf
  · simpa [cancel, hid] using hf

theorem wf_dispatch (s : MState) (hf : WF s) (id : Nat) (rest : List Nat)
    (hc : s.current = none) (hq : s.queueIds = id :: rest) :
    WF (dispatch id rest s) := by
  have hidq : id ∈ s.queueIds := by rw [hq]; exact List.mem_cons_self _ _
  have hidk : id ∈ keys s.objs := hf.queue_sub id hidq
  refine ⟨?_, ?_, ?_, ?_, ?_, ?_, ?_, ?_, ?_, ?_⟩
  · simpa only [dispatch, keys_updObj] using hf.keys_nodup
  · simpa only [dispatch, keys_updObj] using hf.keys_lt
  · simpa only [dispatch, keys_updObj] using hf.admitted_eq
  · simpa only [dispatch, keys_updObj] using hf.items_sub
  · intro i hi
    simp only [dispatch, keys_updObj] at hi ⊢
    exact hf.queue_sub i (by rw [hq]; exact List.mem_cons_of_mem _ hi)
  · show (s.dispatched ++ [id]) ++ rest = s.admitted
    rw [List.append_assoc, List.singleton_append, ← hq, hf.fifo]
  · exact keyed_updObj hf.keyed (fun v => rfl)
  · intro c hcc
    simp only [dispatch, Option.some_inj] at hcc
    subst hcc
    simpa only [dispatch, keys_updObj] using hidk
  · intro c hcc
    simp only [dispatch, Option.some_inj] at hcc
    subst hcc
    obtain ⟨v, hv⟩ := lookupObj_isSome_of_mem hidk
    simp only [statusOf, dispatch]
    rw [lookupObj_updObj_self, hv]
    rfl
  · intro i hi hstat
    by_cases hiid : i = id
    · subst hiid
      rfl
    · simp only [statusOf, dispatch] at hstat
      rw [lookupObj_updObj_ne _ _ hiid] at hstat
      have := hf.active_ident i hi hstat
      rw [hc] at this
      cases this

theorem wf_clear_current_upd (s : MState) (hf : WF s) (id : Nat) (hc : s.current = some id)
    (f : QueuedDownload → QueuedDownload)
    (hfid : ∀ v, (f v).job_id = v.job_id)
    (hfst : ∀ v, (f v).status ≠ DownloadStatus.downloading) :
    WF { s with objs := updObj s.objs id f, current := none } := by
  refine ⟨?_, ?_, ?_, ?_, ?_, ?_, ?_, ?_, ?_, ?_⟩
  · simpa only [keys_updObj] using hf.keys_nodup
  · simpa only [keys_updObj] using hf.keys_lt
  · simpa only [keys_updObj] using hf.admitted_eq
  · simpa only [keys_updObj] using hf.items_sub
  · simpa only [keys_updObj] using hf.queue_sub
  · exact hf.fifo
  · exact keyed_updObj hf.keyed hfid
  · intro c hcc; cases hcc
  · intro c hcc; cases hcc
  · intro i hi hstat
    exfalso
    by_cases hiid : i = id
    · subst hiid
      simp only [statusOf] at hstat
      rw [lookupObj_updObj_self] at hstat
      rcases hl : lookupObj s.objs i with _ | v
      · rw [hl] at hstat; cases hstat
      · rw [hl] at hstat
        simp only [Option.map_some', Option.some_inj] at hstat
        exact hfst v hstat
    · simp only [statusOf] at hstat
      rw [lookupObj_updObj_ne _ _ hiid] at hstat
      have := hf.active_ident i hi hstat
      rw [hc] at this
      exact hiid (Option.some_inj.mp this.symm)

theorem wf_clear_current_noop (s : MState) (hf : WF s) (id : Nat) (hc : s.current = some id)
    (hnotin : id ∉ s.itemsIds) :
    WF { s with current := none } := by
  refine ⟨hf.keys_nodup, hf.keys_lt, hf.admitted_eq, hf.items_sub, hf.queue_sub, hf.fifo,
    hf.keyed, ?_, ?_, ?_⟩
  · intro c hcc; cases hcc
  · intro c hcc; cases hcc
  · intro i hi hstat
    exfalso
    have hstat' : statusOf s i = some DownloadStatus.downloading := hstat
    have := hf.active_ident i hi hstat'
    rw [hc] at this
    exact hnotin (Option.some_inj.mp this.symm ▸ hi)

theorem wf_finish (s : MState) (hf : WF s) (id : Nat) (o : FinishOutcome)
    (hc : s.current = some id) : WF (finish id o s) := by
  cases o with
  | ok =>
    by_cases hid : id ∈ s.itemsIds
    · have hsh : finish id .ok s =
          { s with
            objs := updObj s.objs id (fun o => { o with status := .completed, progress := 100 })
            current := none } := by
        simp [finish, mark_completed, hid]
      rw [hsh]
      exact wf_clear_current_upd s hf id hc _ (fun v => rfl) (fun v => by simp)
    · have hsh : finish id .ok s = { s with current := none } := by
        simp [finish, mark_completed, hid]
      rw [hsh]
      exact wf_clear_current_noop s hf id hc hid
  | err =>
    by_cases hid : id ∈ s.itemsIds
    · have hsh : finish id .err s =
          { s with
            objs := updObj s.objs id (fun o => { o with status := .failed })
            current := none } := by
        simp [finish, mark_failed, hid]
      rw [hsh]
      exact wf_clear_current_upd s hf id hc _ (fun v => rfl) (fun v => by simp)
    · have hsh : finish id .err s = { s with current := none } := by
        simp [finish, mark_failed, hid]
      rw [hsh]
      exact wf_clear_current_noop s hf id hc hid
  | raised =>
    have hsh : finish id .raised s =
        { s with
          objs := updObj s.objs id (fun x => { x with status := .failed })
          current := none } := by
      simp [finish]
    rw [hsh]
    exact wf_clear_current_upd s hf id hc _ (fun v => rfl) (fun v => by simp)

theorem wf_step {s t : MState} (hf : WF s) (hst : Step s t) : WF t := by
  cases hst with
  | admission request sid title => exact wf_add _ hf request sid title
  | cancelled id => exact wf_cancel _ hf id
  | drainStart id rest hc hq => exact wf_dispatch _ hf id rest hc hq
  | drainFinish id o hc => exact wf_finish _ hf id o hc

theorem reachable_wf {s : MState} (h : Reachable s) : WF s := by
  induction h with
  | init => exact wf_init
  | step _ hst ih => exact wf_step ih hst

theorem lookupObj_mem {h : Heap} {id : Nat} {v : QueuedDownload}
    (hl : lookupObj h id = some v) : (id, v) ∈ h := by
  induction h with
  | nil => cases hl
  | cons p rest ih =>
    obtain ⟨k, w⟩ := p
    by_cases hk : k = id
    · subst hk
      rw [lookupObj, if_pos rfl] at hl
      exact Option.some_inj.mp hl ▸ List.mem_cons_self _ _
    · rw [lookupObj, if_neg hk] at hl
      exact List.mem_cons_of_mem _ (ih hl)

/-- Under `WF`, every id of `_items` resolves to an object whose `job_id`
is that id (in the source `_items` maps each id to its object). -/
theorem wf_items_lookup {s : MState} (hf : WF s) :
    ∀ i ∈ s.itemsIds, ∃ it, lookupObj s.objs i = some it ∧ it.job_id = i := by
  intro i hi
  obtain ⟨v, hv⟩ := lookupObj_isSome_of_mem (hf.items_sub.subset hi)
  exact ⟨v, hv, hf.keyed _ (lookupObj_mem hv)⟩

/-- The ids of `_items` records with status `QUEUED`, restricted to `l`. -/
def qIdsOn (s : MState) (l : List Nat) : List Nat :=
  l.filter (fun i => decide (statusOf s i = some DownloadStatus.queued))

/-- The ids of the currently `QUEUED` records of `_items`, in insertion
(= admission) order. -/
def queuedIds (s : MState) : List Nat := qIdsOn s s.itemsIds

/-- The ids of the `_items` records currently in `DOWNLOADING` state. -/
def activeIds (s : MState) : List Nat :=
  s.itemsIds.filter (fun i => decide (statusOf s i = some DownloadStatus.downloading))

theorem posLoop_spec (s : MState) (id : Nat) :
    ∀ (l : List Nat) (p : Int),
      (∀ i ∈ l, ∃ it, lookupObj s.objs i = some it ∧ it.job_id = i) →
      posLoop s l id p =
        if id ∈ qIdsOn s l then p + ((qIdsOn s l).indexOf id : Int) else -1 := by
  intro l
  induction l with
  | nil =>
    intro p _
    simp [posLoop, qIdsOn]
  | cons i rest ih =>
    intro p H
    obtain ⟨it, hit, hjid⟩ := H i (List.mem_cons_self _ _)
    have Hrest : ∀ j ∈ rest, ∃ v, lookupObj s.objs j = some v ∧ v.job_id = j :=
      fun j hj => H j (List.mem_cons_of_mem _ hj)
    by_cases hq : it.status = DownloadStatus.queued
    · have hqs : statusOf s i = some DownloadStatus.queued := by
        simp [statusOf, hit, hq]
      have hqids : qIdsOn s (i :: rest) = i :: qIdsOn s rest := by
        simp [qIdsOn, List.filter_cons, hqs]
      by_cases hii : i = id
      · subst hii
        have hj : it.job_id = i := hjid
        rw [posLoop, hit]
        simp only [if_pos hq, if_pos hj]
        rw [hqids]
        simp [List.indexOf_cons_self]
      · have hj : ¬it.job_id = id := by rw [hjid]; exact hii
        rw [posLoop, hit]
        simp only [if_pos hq, if_neg hj]
        rw [ih (p + 1) Hrest, hqids]
        by_cases hmem : id ∈ qIdsOn s rest
        · have hmem' : id ∈ i :: qIdsOn s rest := List.mem_cons_of_mem _ hmem
          rw [if_pos hmem, if_pos hmem', List.indexOf_cons_ne _ hii]
          push_cast
          ring
        · have hmem' : id ∉ i :: qIdsOn s rest := by
            intro hx
            rcases List.mem_cons.mp hx with hx | hx
            · exact hii hx.symm
            · exact hmem hx
          rw [if_neg hmem, if_neg hmem']
    · have hqs : ¬statusOf s i = some DownloadStatus.queued := by
        simp [statusOf, hit, hq]
      have hqids : qIdsOn s (i :: rest) = qIdsOn s rest := by
        simp [qIdsOn, List.filter_cons, hqs]
      rw [posLoop, hit]
      simp only [if_neg hq]
      rw [ih p Hrest, hqids]

/-- The `QUEUED` records of `_items` (the objects themselves), in
insertion order — what `get_queue_status`'s second loop iterates over. -/
def queuedItems (s : MState) : List QueuedDownload :=
  (s.itemsIds.filterMap (fun i => lookupObj s.objs i)).filter
    (fun it => decide (it.status = DownloadStatus.queued))

/-- Spec-side numbering of the queued records: one snapshot entry per
record, positions counting up from `pos`, progress reported as 0. -/
def rankedFrom (pos : Int) : List QueuedDownload → List QueueItem
  | [] => []
  | it :: rest => toQueueItem it pos 0 :: rankedFrom (pos + 1) rest

theorem rankedFrom_progress (p : Int) (l : List QueuedDownload) :
    ∀ qi ∈ rankedFrom p l, qi.progress = 0 := by
  induction l generalizing p with
  | nil => intro qi hq; cases hq
  | cons it rest ih =>
    intro qi hq
    rcases List.mem_cons.mp hq with h1 | h2
    · subst h1; rfl
    · exact ih (p + 1) qi h2

theorem rankedFrom_map_position (p : Int) (l : List QueuedDownload) :
    (rankedFrom p l).map (fun qi => qi.position)
      = (List.range l.length).map (fun (k : Nat) => p + (k : Int)) := by
  induction l generalizing p with
  | nil => rfl
  | cons it rest ih =>
    show p :: (rankedFrom (p + 1) rest).map (fun qi => qi.position) = _
    rw [ih (p + 1), List.length_cons, List.range_succ_eq_map, List.map_cons, List.map_map]
    have hh : (p + ((0 : Nat) : Int)) = p := by simp
    rw [hh]
    refine congrArg (p :: ·) (List.map_congr_left ?_)
    intro k _
    simp only [Function.comp_apply]
    push_cast
    ring

theorem statusLoop_eq (s : MState) : ∀ (l : List Nat) (p : Int),
    statusLoop s l p
      = rankedFrom p ((l.filterMap (fun i => lookupObj s.objs i)).filter
          (fun it => decide (it.status = DownloadStatus.queued))) := by
  intro l
  induction l with
  | nil => intro p; rfl
  | cons i rest ih =>
    intro p
    rcases hl : lookupObj s.objs i with _ | it
    · simp [statusLoop, hl, List.filterMap_cons_none hl, ih p]
    · by_cases hq : it.status = DownloadStatus.queued <;>
        simp [statusLoop, hl, hq, List.filterMap_cons_some hl, List.filter_cons,
          ih, rankedFrom]

theorem get_queue_status_items (s : MState) :
    (get_queue_status s).items =
      (match s.current with
       | some c =>
         if c ∈ s.itemsIds then
           match lookupObj s.objs c with
           | some it => [toQueueItem it 0 it.progress]
           | none => []
         else []
       | none => []) ++ rankedFrom 1 (queuedItems s) := by
  rw [get_queue_status]
  simp only []
  rw [statusLoop_eq]
  rfl

/-- A concrete valid request used by the witnesses. -/
def exReq : DownloadRequest :=
  { url := "https://youtu.be/abc" }

/-- One job (id 0) admitted and still queued. -/
def exA : MState := (add exReq none none initState).2

/-- Job 0 dispatched (downloading), queue empty. -/
def exB : MState := dispatch 0 [] exA

/-- A second job (id 1) admitted while job 0 is active. -/
def exC : MState := (add exReq none none exB).2

theorem reach_exA : Reachable exA :=
  Reachable.step Reachable.init (Step.admission initState exReq none none)

theorem reach_exB : Reachable exB :=
  Reachable.step reach_exA (Step.drainStart exA 0 [] rfl rfl)

theorem reach_exC : Reachable exC :=
  Reachable.step reach_exB (Step.admission exB exReq none none)

/-- Claim C2: in every reachable state, at most one record of the live
index is in the `DOWNLOADING` (Active) state, `_current` identifies every
such record, and when `_current` is `None` no record is downloading. -/
theorem at_most_one_active (s : MState) (h : Reachable s) :
    (activeIds s).length ≤ 1
    ∧ (∀ i ∈ activeIds s, s.current = some i)
    ∧ (s.current = none → activeIds s = []) := by
  have hf := reachable_wf h
  have hmem : ∀ i ∈ activeIds s, s.current = some i := by
    intro i hi
    rw [activeIds, List.mem_filter] at hi
    exact hf.active_ident i hi.1 (of_decide_eq_true hi.2)
  refine ⟨?_, hmem, ?_⟩
  · rcases hal : activeIds s with _ | ⟨a, _ | ⟨b, t⟩⟩
    · simp
    · simp
    · exfalso
      have hnd : (activeIds s).Nodup :=
        List.Nodup.filter _ (hf.items_sub.nodup hf.keys_nodup)
    -- two distinct entries would both have to be the current job
      have ha := hmem a (by rw [hal]; exact List.mem_cons_self _ _)
      have hb := hmem b (by rw [hal]; exact List.mem_cons_of_mem _ (List.mem_cons_self _ _))
      rw [ha] at hb
      have hab : a = b := Option.some_inj.mp hb
      rw [hal] at hnd
      have := List.Nodup.not_mem (hnd)
      exact this (hab ▸ List.mem_cons_self _ _)
  · intro hc
    refine List.eq_nil_iff_forall_not_mem.mpr ?_
    intro x hx
    have := hmem x hx
    rw [hc] at this
    cases this

/-- Witness for C2: a reachable state in which job 0 is downloading. -/
theorem at_most_one_active_witness :
    (Reachable exB ∧ activeIds exB = [0])
    ∧ ((activeIds exB).length ≤ 1
       ∧ (∀ i ∈ activeIds exB, exB.current = some i)
       ∧ (exB.current = none → activeIds exB = [])) :=
  ⟨⟨reach_exB, by decide⟩, at_most_one_active exB reach_exB⟩

/-- Claim C3: the ghost trace of dispatches concatenated with the pending
queue equals the admission trace, so the drain loop dispatches jobs in
exactly admission (FIFO) order: the dispatch trace is always the prefix
of the admission trace of its own length. -/
theorem fifo_dispatch_order (s : MState) (h : Reachable s) :
    s.dispatched ++ s.queueIds = s.admitted
    ∧ s.dispatched = s.admitted.take s.dispatched.length := by
  have hf := reachable_wf h
  refine ⟨hf.fifo, ?_⟩
  rw [← hf.fifo]
  exact (List.take_left _ _).symm

/-- Witness for C3 at a reachable state with one dispatched and one
pending job. -/
theorem fifo_dispatch_order_witness :
    (Reachable exC ∧ exC.dispatched = [0] ∧ exC.queueIds = [1] ∧ exC.admitted = [0, 1])
    ∧ (exC.dispatched ++ exC.queueIds = exC.admitted
       ∧ exC.dispatched = exC.admitted.take exC.dispatched.length) :=
  ⟨⟨reach_exC, by decide, by decide, by decide⟩, fifo_dispatch_order exC reach_exC⟩

/-- Claim C5: `get_position` returns 0 for the current job; mapped over
the queued records (in admission order) it yields exactly 1, 2, …, n —
consecutive positive ranks with no gaps or duplicates; and it returns the
sentinel -1 for every id that is neither current nor queued.  The queued
ids are a subsequence of the admission trace, so the ranks follow
admission order. -/
theorem position_spec (s : MState) (h : Reachable s) :
    (∀ id, s.current = some id → get_position s id = 0)
    ∧ (queuedIds s).map (get_position s)
        = (List.range (queuedIds s).length).map (fun (k : Nat) => (k : Int) + 1)
    ∧ (∀ id, s.current ≠ some id → id ∉ queuedIds s → get_position s id = -1)
    ∧ (queuedIds s).Sublist s.admitted := by
  have hf := reachable_wf h
  have H := wf_items_lookup hf
  have hnd : (queuedIds s).Nodup :=
    List.Nodup.filter _ (hf.items_sub.nodup hf.keys_nodup)
  have hnotcur : ∀ id ∈ queuedIds s, ¬s.current = some id := by
    intro id hid hc
    rw [queuedIds, qIdsOn, List.mem_filter] at hid
    have hq : statusOf s id = some DownloadStatus.queued := of_decide_eq_true hid.2
    have hd := hf.current_active id hc
    rw [hq] at hd
    cases hd
  refine ⟨?_, ?_, ?_, ?_⟩
  · intro id hc
    rw [get_position, if_pos hc]
  · refine List.ext_getElem (by simp) ?_
    intro k hk1 hk2
    rw [List.getElem_map, List.getElem_map, List.getElem_range]
    rw [List.length_map] at hk1
    set a := (queuedIds s)[k] with ha
    have hamem : a ∈ queuedIds s := List.getElem_mem _
    rw [get_position, if_neg (hnotcur a hamem)]
    rw [posLoop_spec s a s.itemsIds 1 H]
    have hapos : (qIdsOn s s.itemsIds).indexOf a = k := by
      have := List.indexOf_getElem hnd k (by simpa [queuedIds] using hk1)
      simpa [queuedIds] using this
    rw [if_pos (by simpa [queuedIds] using hamem), hapos]
    omega
  · intro id h1 h2
    rw [get_position, if_neg h1, posLoop_spec s id s.itemsIds 1 H,
      if_neg (by simpa [queuedIds] using h2)]
  · rw [hf.admitted_eq]
    exact (List.filter_sublist _).trans hf.items_sub

/-- Witness for C5 at a reachable state with job 0 active and job 1
queued. -/
theorem position_spec_witness :
    (Reachable exC ∧ get_position exC 0 = 0 ∧ get_position exC 1 = 1
      ∧ get_position exC 7 = -1 ∧ queuedIds exC = [1])
    ∧ ((∀ id, exC.current = some id → get_position exC id = 0)
       ∧ (queuedIds exC).map (get_position exC)
           = (List.range (queuedIds exC).length).map (fun (k : Nat) => (k : Int) + 1)
       ∧ (∀ id, exC.current ≠ some id → id ∉ queuedIds exC → get_position exC id = -1)
       ∧ (queuedIds exC).Sublist exC.admitted) :=
  ⟨⟨reach_exC, by decide, by decide, by decide, by decide⟩,
   position_spec exC reach_exC⟩

/-- Claim C1 (refuted — code bug): a job whose cancellation succeeded
while it was still queued is nevertheless dispatched later.  `cancel`
removes the record from `_items` but not from the `asyncio.Queue`, and
`_process_queue` executes whatever it dequeues without re-checking
`_items`.  Concretely: job 0 is admitted, `cancel 0` returns `True`, and
from the resulting state a legal drain step dequeues job 0, sets
`_current` to it, marks it `DOWNLOADING` and invokes the download
callback on it. -/
theorem cancelled_job_still_dispatched :
    Reachable (cancel 0 exA).2
    ∧ (cancel 0 exA).1 = true
    ∧ (cancel 0 exA).2.queueIds = [0]
    ∧ Step (cancel 0 exA).2 (dispatch 0 [] (cancel 0 exA).2)
    ∧ (dispatch 0 [] (cancel 0 exA).2).current = some 0
    ∧ (dispatch 0 [] (cancel 0 exA).2).dispatched = [0]
    ∧ statusOf (dispatch 0 [] (cancel 0 exA).2) 0 = some DownloadStatus.downloading :=
  ⟨Reachable.step reach_exA (Step.cancelled exA 0),
   by decide, by decide,
   Step.drainStart _ 0 [] (by decide) (by decide),
   by decide, by decide, by decide⟩

/-- Claim C4, counterexample to "transitions the record to Cancelled": a
successful `cancel` sets the record's status to `FAILED`; the status
enumeration of the source has no distinct cancelled member at all (its
six members are listed exhaustively below). -/
theorem cancel_no_cancelled_state :
    (cancel 0 exA).1 = true
    ∧ statusOf (cancel 0 exA).2 0 = some DownloadStatus.failed
    ∧ (∀ st : DownloadStatus,
        st = DownloadStatus.queued ∨ st = DownloadStatus.fetching_info
        ∨ st = DownloadStatus.downloading ∨ st = DownloadStatus.processing
        ∨ st = DownloadStatus.completed ∨ st = DownloadStatus.failed) := by
  refine ⟨by decide, by decide, ?_⟩
  intro st
  cases st <;> simp

/-- Claim C4 as amended: `cancel` returns `True` iff the id is in the
live index with status `QUEUED`; in that case it marks the record
`FAILED` (not a distinct Cancelled state), removes it from the live
index, and touches nothing else; in every other case it returns `False`
and the whole state is unchanged. -/
theorem cancel_spec (s : MState) (id : Nat) :
    ((cancel id s).1 = true ↔ id ∈ s.itemsIds ∧ statusOf s id = some DownloadStatus.queued)
    ∧ ((cancel id s).1 = true →
        (cancel id s).2.itemsIds = s.itemsIds.erase id
        ∧ statusOf (cancel id s).2 id = some DownloadStatus.failed
        ∧ (cancel id s).2.queueIds = s.queueIds
        ∧ (cancel id s).2.current = s.current
        ∧ (∀ j, j ≠ id → lookupObj (cancel id s).2.objs j = lookupObj s.objs j))
    ∧ ((cancel id s).1 = false → (cancel id s).2 = s) := by
  by_cases hid : id ∈ s.itemsIds
  · rcases hl : lookupObj s.objs id with _ | it
    · have hs : statusOf s id = none := by simp [statusOf, hl]
      simp [cancel, hid, hl, hs]
    · have hs : statusOf s id = some it.status := by simp [statusOf, hl]
      by_cases hq : it.status = DownloadStatus.queued
      · have hres : cancel id s =
            (true,
              { s with
                objs := updObj s.objs id (fun o => { o with status := .failed })
                itemsIds := s.itemsIds.erase id }) := by
          simp [cancel, hid, hl, hq]
        rw [hres]
        refine ⟨?_, ?_, ?_⟩
        · simp [hid, hs, hq]
        · intro _
          refine ⟨rfl, ?_, rfl, rfl, ?_⟩
          · simp [statusOf, lookupObj_updObj_self, hl]
          · intro j hj
            exact lookupObj_updObj_ne _ _ hj
        · intro hff
          cases hff
      · have hres : cancel id s = (false, s) := by
          simp [cancel, hid, hl, hq]
        rw [hres]
        refine ⟨?_, ?_, fun _ => rfl⟩
        · simp [hs, hq]
        · intro hff
          cases hff
  · have hres : cancel id s = (false, s) := by
      simp [cancel, hid]
    rw [hres]
    refine ⟨?_, ?_, fun _ => rfl⟩
    · simp [hid]
    · intro hff
      cases hff

/-- Witness for C4's amended statement: a successful cancel of the
queued job 0 and a failing cancel of the unknown id 7. -/
theorem cancel_spec_witness :
    ((0 ∈ exA.itemsIds ∧ statusOf exA 0 = some DownloadStatus.queued)
      ∧ (cancel 0 exA).1 = true)
    ∧ ((cancel 7 exA).1 = false ∧ (cancel 7 exA).2 = exA) :=
  ⟨⟨⟨by decide, by decide⟩, (cancel_spec exA 0).1.mpr ⟨by decide, by decide⟩⟩,
   ⟨by decide, (cancel_spec exA 7).2.2 (by decide)⟩⟩

/-- Claim C6: `add` creates the record in state `QUEUED` with progress 0
under a fresh identifier, appends it to the pending queue, and makes it
visible before returning: `get_item` finds exactly the returned record
and `get_position` gives it a positive rank. -/
theorem add_creates_queued_visible (s : MState) (h : Reachable s) (request : DownloadRequest)
    (sid title : Option String) :
    (add request sid title s).1.status = DownloadStatus.queued
    ∧ (add request sid title s).1.progress = 0
    ∧ (add request sid title s).1.job_id ∉ keys s.objs
    ∧ (add request sid title s).2.queueIds
        = s.queueIds ++ [(add request sid title s).1.job_id]
    ∧ get_item (add request sid title s).2 (add request sid title s).1.job_id
        = some (add request sid title s).1
    ∧ 0 < get_position (add request sid title s).2 (add request sid title s).1.job_id := by
  have hf := reachable_wf h
  have hnew : s.nextId ∉ keys s.objs := fun hmem => lt_irrefl _ (hf.keys_lt _ hmem)
  have hlooknew : lookupObj ((add request sid title s).2.objs) s.nextId
      = some (add request sid title s).1 := by
    show lookupObj (s.objs ++ [(s.nextId, (add request sid title s).1)]) s.nextId = _
    rw [lookupObj_append, lookupObj_eq_none hnew]
    simp [lookupObj]
  have hf' := wf_add s hf request sid title
  refine ⟨rfl, rfl, hnew, rfl, ?_, ?_⟩
  · rw [get_item, if_pos ?_]
    · exact hlooknew
    · show s.nextId ∈ s.itemsIds ++ [s.nextId]
      exact List.mem_append_right _ (List.mem_singleton.mpr rfl)
  · rw [add_fst_job_id]
    set t := (add request sid title s).2 with ht
    have hcur : ¬t.current = some s.nextId := by
      intro hc
      have : s.current = some s.nextId := hc
      have := hf.current_mem _ this
      exact hnew this
    rw [get_position, if_neg hcur]
    rw [posLoop_spec t s.nextId t.itemsIds 1 (wf_items_lookup hf')]
    have hq : statusOf t s.nextId = some DownloadStatus.queued := by
      rw [statusOf, hlooknew]
      rfl
    have hmem : s.nextId ∈ qIdsOn t t.itemsIds := by
      rw [qIdsOn, List.mem_filter]
      refine ⟨?_, by simp [hq]⟩
      show s.nextId ∈ s.itemsIds ++ [s.nextId]
      exact List.mem_append_right _ (List.mem_singleton.mpr rfl)
    rw [if_pos hmem]
    have hk : (0 : Int) ≤ ((qIdsOn t t.itemsIds).indexOf s.nextId : Int) :=
      Int.natCast_nonneg _
    omega

/-- Witness for C6: adding the example request to the empty manager. -/
theorem add_creates_queued_visible_witness :
    Reachable initState
    ∧ ((add exReq none none initState).1.status = DownloadStatus.queued
       ∧ (add exReq none none initState).1.progress = 0
       ∧ (add exReq none none initState).1.job_id ∉ keys initState.objs
       ∧ (add exReq none none initState).2.queueIds
           = initState.queueIds ++ [(add exReq none none initState).1.job_id]
       ∧ get_item (add exReq none none initState).2 (add exReq none none initState).1.job_id
           = some (add exReq none none initState).1
       ∧ 0 < get_position (add exReq none none initState).2
           (add exReq none none initState).1.job_id) :=
  ⟨Reachable.init, add_creates_queued_visible initState Reachable.init exReq none none⟩

/-- Claim C7: `mark_completed` forces status `COMPLETED` and progress
exactly 100 on the in-memory record; persisting `COMPLETED` stamps the
completion timestamp (and progress 100 as passed by the success path of
the callback); persisting `FAILED` with the fault's message records that
message as error detail and leaves `completed_at` unset. -/
theorem terminal_transition_spec (s : MState) (id : Nat) (it : QueuedDownload)
    (hid : id ∈ s.itemsIds) (hit : lookupObj s.objs id = some it)
    (r : DownloadRecord) (msg : String) (fp : Option String) (fz : Option Int)
    (tt : Option String) (now : Nat) (hr : r.completed_at = none) :
    statusOf (mark_completed id s) id = some DownloadStatus.completed
    ∧ progressOf (mark_completed id s) id = some 100
    ∧ (update_download_status r .completed (some 100) none fp fz tt now).completed_at = some now
    ∧ (update_download_status r .completed (some 100) none fp fz tt now).progress = 100
    ∧ (update_download_status r .failed none (some msg) none none none now).error_message = some msg
    ∧ (update_download_status r .failed none (some msg) none none none now).completed_at = none := by
  refine ⟨?_, ?_, ?_, ?_, ?_, ?_⟩
  · simp [mark_completed, hid, statusOf, lookupObj_updObj_self, hit]
  · simp [mark_completed, hid, progressOf, lookupObj_updObj_self, hit]
  · simp [update_download_status]
  · simp [update_download_status]
  · simp [update_download_status]
  · simp [update_download_status, hr]

/-- The record object created by admitting the example request. -/
def exIt0 : QueuedDownload := (add exReq none none initState).1

/-- A database row for the example job, fresh from creation. -/
def exRec : DownloadRecord := { job_id := 0, url := "https://youtu.be/abc" }

/-- Witness for C7 on the example job and row. -/
theorem terminal_transition_spec_witness :
    (0 ∈ exA.itemsIds ∧ lookupObj exA.objs 0 = some exIt0 ∧ exRec.completed_at = none)
    ∧ (statusOf (mark_completed 0 exA) 0 = some DownloadStatus.completed
       ∧ progressOf (mark_completed 0 exA) 0 = some 100
       ∧ (update_download_status exRec .completed (some 100) none none none none 5).completed_at
           = some 5
       ∧ (update_download_status exRec .completed (some 100) none none none none 5).progress = 100
       ∧ (update_download_status exRec .failed none (some "network timeout") none none none
           5).error_message = some "network timeout"
       ∧ (update_download_status exRec .failed none (some "network timeout") none none none
           5).completed_at = none) :=
  ⟨⟨by decide, by decide, rfl⟩,
   terminal_transition_spec exA 0 exIt0 (by decide) (by decide) exRec "network timeout"
     none none none 5 rfl⟩

/-- Claim C8: a specification whose format, video quality or audio
quality lies outside the closed enumerations is rejected by validation —
no job record is created and the manager state is untouched. -/
theorem invalid_spec_rejected (url fmt vq aq : String) (playlist_items : Option (List Int))
    (sid title : Option String) (s : MState)
    (h : DownloadFormat.ofString fmt = none ∨ VideoQuality.ofString vq = none
         ∨ AudioQuality.ofString aq = none) :
    (admitValidated url fmt vq aq playlist_items sid title s).1 = none
    ∧ (admitValidated url fmt vq aq playlist_items sid title s).2 = s := by
  have hp : parseDownloadRequest url fmt vq aq playlist_items = none := by
    rw [parseDownloadRequest]
    rcases hF : DownloadFormat.ofString fmt with _ | f <;>
      rcases hV : VideoQuality.ofString vq with _ | v <;>
        rcases hA : AudioQuality.ofString aq with _ | a <;>
          simp_all
  constructor <;> simp [admitValidated, hp]

/-- Witness for C8: the unrecognized format string "mkv" is rejected. -/
theorem invalid_spec_rejected_witness :
    DownloadFormat.ofString "mkv" = none
    ∧ ((admitValidated "https://youtu.be/abc" "mkv" "best" "192" none none none initState).1
        = none
       ∧ (admitValidated "https://youtu.be/abc" "mkv" "best" "192" none none none initState).2
        = initState) :=
  ⟨by decide,
   invalid_spec_rejected "https://youtu.be/abc" "mkv" "best" "192" none none none initState
     (Or.inl (by decide))⟩

/-- Claim C9: the four mutators are silent no-ops on an id that is not in
the live index — the whole manager state is returned unchanged. -/
theorem mutators_unknown_id_noop (s : MState) (id : Nat) (h : id ∉ s.itemsIds)
    (p : ℚ) (st : Option DownloadStatus) (t : String) :
    update_progress id p st s = s
    ∧ update_title id t s = s
    ∧ mark_completed id s = s
    ∧ mark_failed id s = s := by
  refine ⟨?_, ?_, ?_, ?_⟩ <;>
    simp [update_progress, update_title, mark_completed, mark_failed, h]

/-- Witness for C9: id 99 is unknown to the one-job manager. -/
theorem mutators_unknown_id_noop_witness :
    (99 ∉ exA.itemsIds)
    ∧ (update_progress 99 50 (some DownloadStatus.downloading) exA = exA
       ∧ update_title 99 "t" exA = exA
       ∧ mark_completed 99 exA = exA
       ∧ mark_failed 99 exA = exA) :=
  ⟨by decide, mutators_unknown_id_noop exA 99 (by decide) 50 (some DownloadStatus.downloading) "t"⟩

/-- Claim C10: every snapshot entry with a positive position reports
progress 0 (whatever the record stores); when a current job exists in the
index, the snapshot is exactly that record first, with position 0 and its
stored progress, followed by the queued records ranked 1, 2, … in index
order (and with no current job it is exactly the ranked queued records);
the ranked entries' positions are consecutive from 1. -/
theorem snapshot_spec (s : MState) :
    (∀ qi ∈ (get_queue_status s).items, 0 < qi.position → qi.progress = 0)
    ∧ (∀ c it, s.current = some c → c ∈ s.itemsIds → lookupObj s.objs c = some it →
        (get_queue_status s).items
          = toQueueItem it 0 it.progress :: rankedFrom 1 (queuedItems s))
    ∧ (s.current = none →
        (get_queue_status s).items = rankedFrom 1 (queuedItems s))
    ∧ ((rankedFrom 1 (queuedItems s)).map (fun qi => qi.position)
        = (List.range (queuedItems s).length).map (fun (k : Nat) => 1 + (k : Int)))
    ∧ (get_queue_status s).processing = s.current := by
  refine ⟨?_, ?_, ?_, rankedFrom_map_position 1 _, rfl⟩
  · intro qi hqi hpos
    rw [get_queue_status_items] at hqi
    rcases List.mem_append.mp hqi with hqi | hqi
    · exfalso
      rcases hcur : s.current with _ | c <;> rw [hcur] at hqi
      · cases hqi
      · by_cases hcm : c ∈ s.itemsIds
        · rcases hl : lookupObj s.objs c with _ | it
          · simp [hcm, hl] at hqi
          · simp [hcm, hl] at hqi
            rw [hqi] at hpos
            simp [toQueueItem] at hpos
        · simp [hcm] at hqi
    · exact rankedFrom_progress 1 _ qi hqi
  · intro c it hc hcm hit
    rw [get_queue_status_items, hc]
    simp [hcm, hit]
  · intro hc
    rw [get_queue_status_items, hc]
    rfl

/-- A manager state (job 0 downloading at 37%, job 1 queued with a stale
stored progress of 55) showing that the snapshot reports 0 for queued
entries regardless of the stored value. -/
def exOdd : MState :=
  { objs := [(0, { exIt0 with status := .downloading, progress := 37 }),
             (1, { exIt0 with job_id := 1, progress := 55 })]
    itemsIds := [0, 1]
    queueIds := [1]
    current := some 0
    nextId := 2
    admitted := [0, 1]
    dispatched := [0] }

/-- Witness for C10 at `exOdd`. -/
theorem snapshot_spec_witness :
    (exOdd.current = some 0 ∧ 0 ∈ exOdd.itemsIds
      ∧ lookupObj exOdd.objs 0
          = some { exIt0 with status := DownloadStatus.downloading, progress := 37 }
      ∧ progressOf exOdd 1 = some 55)
    ∧ (get_queue_status exOdd).items
        = toQueueItem { exIt0 with status := DownloadStatus.downloading, progress := 37 } 0
            ({ exIt0 with status := DownloadStatus.downloading, progress := 37 }
              : QueuedDownload).progress
          :: rankedFrom 1 (queuedItems exOdd)
    ∧ (get_queue_status exOdd).items.map (fun qi => qi.progress) = [37, 0] :=
  ⟨⟨rfl, by decide, by decide, by decide⟩,
   (snapshot_spec exOdd).2.1 0
     { exIt0 with status := DownloadStatus.downloading, progress := 37 } rfl (by decide)
     (by decide),
   by decide⟩

end DLQueue
